import Mathlib

/-!
Shallow embedding of the query-evaluation core of the `irspimi` information-retrieval
system: the boolean query lexer/recursive-descent Parser and tree Evaluator from
`expression_eval.py`, and the BM25 ranked-retrieval path from `rank_bm25_eval.py`.

Python dictionaries are modelled as insertion-ordered association lists, Python `None`
as `Option.none`, exceptions as an `Except` error type, and float arithmetic as exact
rational arithmetic with `math.log2` left as an opaque function parameter.
-/

/-- Modelled from the spec: `inverted_index.Posting` is not among the sources; per the
spec a Posting is a document id together with the ordered positions of the term in
that document. -/
structure Posting where
  docid : Nat
  positions : List Nat
deriving DecidableEq

/-- Modelled from the spec: `inverted_index.TermPostings` is not among the sources;
per the spec it pairs a term with its postings list, sorted ascending by docid. -/
structure TermPostings where
  term : String
  postings : List Posting
deriving DecidableEq

/-- Modelled from the spec: the `inverted_index.InvertedIndex` collaborator is not
among the sources; this is the narrow read interface the evaluation core consumes
(spec section 6). `get_postings` returns the sentinel absence (`none`) for an
unindexed term. -/
structure InvertedIndex where
  get_postings : String → Option TermPostings
  get_universe : List Nat
  get_doc_count : Nat
  get_doclength : Nat → Nat
  avg_doclength : ℚ

/-- Lookup in an insertion-ordered association list (Python `d[k]` / `k in d`). -/
def dictGet {α β : Type} [DecidableEq α] : List (α × β) → α → Option β
  | [], _ => none
  | (k, v) :: rest, k' => if k = k' then some v else dictGet rest k'

/-- Update in an insertion-ordered association list (Python `d[k] = v`): an existing
key keeps its position, a new key is appended at the end. -/
def dictSet {α β : Type} [DecidableEq α] : List (α × β) → α → β → List (α × β)
  | [], k, v => [(k, v)]
  | (k', v') :: rest, k, v => if k' = k then (k, v) :: rest else (k', v') :: dictSet rest k v

/-- Token kinds of the boolean query language (`expression_eval.TokenType`). -/
inductive TokenType
  | TERM
  | OR
  | AND
  | NOT
  | LPAREN
  | RPAREN
  | EOF
deriving DecidableEq

/-- The reserved spelling of each token kind (the `TokenType` enum values). -/
def TokenType.value : TokenType → String
  | .TERM => "TERM"
  | .OR => "OR"
  | .AND => "AND"
  | .NOT => "NOT"
  | .LPAREN => "("
  | .RPAREN => ")"
  | .EOF => "##EOF##"

/-- A lexed token (`expression_eval.Token`). -/
structure Token where
  value : String
  type : TokenType
deriving DecidableEq

/-- Classification of one raw token string by exact match against the reserved
spellings (the if/elif chain of `expression_eval.lexer`). -/
def classify (t : String) : TokenType :=
  if t = TokenType.OR.value then .OR
  else if t = TokenType.AND.value then .AND
  else if t = TokenType.NOT.value then .NOT
  else if t = TokenType.LPAREN.value then .LPAREN
  else if t = TokenType.RPAREN.value then .RPAREN
  else if t = TokenType.EOF.value then .EOF
  else .TERM

/-- `expression_eval.lexer`: classify every raw token string. -/
def lexer (tokens : List String) : List Token :=
  tokens.map (fun t => { value := t, type := classify t })

/-- The AST of a boolean query (`expression_eval.ParseTree` and its three
subclasses, rendered as a closed sum type as the spec recommends). Constructor
argument order matches the Python constructors. -/
inductive ParseTree
  | BinOp (left_child : ParseTree) (op : Token) (right_child : ParseTree)
  | Term (term : Token)
  | UnaryOp (op : Token) (child : ParseTree)
deriving DecidableEq

/-- The exceptions the Python code can raise while parsing or evaluating.
`invalidKind` is the `ExpressionParserException` raised by `Parser._ingest`
(carrying the expected and the received token kind), `invalidBinaryOperator` and
`invalidNodeType` are the `ExpressionParserException`s of the Evaluator dispatch.
`unboundLocal` is Python's `UnboundLocalError`: `Parser._term` has no branch for a
token that is none of NOT/TERM/LPAREN and falls to `return node` with the local
`node` never assigned. `stopIteration` is Python's `StopIteration` from advancing
an exhausted token stream. `outOfFuel` is an artifact of the embedding's fuelled
recursion, never reached with the fuel supplied by `Parser.parse`. -/
inductive PyError
  | invalidKind (expected actual : TokenType)
  | invalidBinaryOperator
  | invalidNodeType
  | unboundLocal
  | stopIteration
  | outOfFuel
deriving DecidableEq

/-- Whether an error is an `ExpressionParserException` (as opposed to a plain
Python runtime error). -/
def PyError.isExpressionParserException : PyError → Bool
  | .invalidKind _ _ => true
  | .invalidBinaryOperator => true
  | .invalidNodeType => true
  | _ => false

instance exceptDecEq {ε α : Type} [DecidableEq ε] [DecidableEq α] : DecidableEq (Except ε α) := fun
  | .error e, .error f =>
    if h : e = f then .isTrue (by rw [h]) else .isFalse (by intro hc; cases hc; exact h rfl)
  | .error _, .ok _ => .isFalse (by intro hc; cases hc)
  | .ok _, .error _ => .isFalse (by intro hc; cases hc)
  | .ok a, .ok b =>
    if h : a = b then .isTrue (by rw [h]) else .isFalse (by intro hc; cases hc; exact h rfl)

namespace Parser

/-- Parser state: the current token followed by the not-yet-consumed rest of the
token stream (Python keeps `_current_token` plus an iterator). -/
abbrev Stream := List Token

/-- `Parser._ingest`: if the current token has the expected kind, advance to the
next token; otherwise raise the `ExpressionParserException` carrying the expected
and the received kind. Advancing past the end of the stream would raise
`StopIteration` in Python. -/
def ingest (ty : TokenType) : Stream → Except PyError Stream
  | [] => .error .stopIteration
  | tok :: rest =>
    if tok.type = ty then
      match rest with
      | [] => .error .stopIteration
      | _ => .ok rest
    else .error (.invalidKind ty tok.type)

/-- Which recursive-descent procedure is running; the loop modes carry the node
accumulated so far. This tags the mutually recursive procedures `_expression`,
`_conjunction` and `_term` (and their while loops) so that the whole parser is one
structural recursion on fuel. -/
inductive Mode
  | expr
  | orLoop (node : ParseTree)
  | conj
  | andLoop (node : ParseTree)
  | trm

/-- The recursive-descent parser of `expression_eval.Parser`, one procedure per
grammar production:
`_expression := _conjunction (OR _conjunction)*` (`.expr` / `.orLoop`),
`_conjunction := _term (AND _term)*` (`.conj` / `.andLoop`),
`_term := NOT _term | TERM | LPAREN _expression RPAREN` (`.trm`).
In `.trm`, a current token that is none of NOT/TERM/LPAREN takes no branch and the
Python function returns the unassigned local `node`, raising `UnboundLocalError`. -/
def run : Nat → Mode → Stream → Except PyError (ParseTree × Stream)
  | 0, _, _ => .error .outOfFuel
  | fuel + 1, mode, st =>
    match mode with
    | .expr => do
      let (node, st) ← run fuel .conj st
      run fuel (.orLoop node) st
    | .orLoop node =>
      match st with
      | [] => .error .stopIteration
      | tok :: _ =>
        if tok.type = .OR then do
          let st ← ingest .OR st
          let (rhs, st) ← run fuel .conj st
          run fuel (.orLoop (.BinOp node tok rhs)) st
        else .ok (node, st)
    | .conj => do
      let (node, st) ← run fuel .trm st
      run fuel (.andLoop node) st
    | .andLoop node =>
      match st with
      | [] => .error .stopIteration
      | tok :: _ =>
        if tok.type = .AND then do
          let st ← ingest .AND st
          let (rhs, st) ← run fuel .trm st
          run fuel (.andLoop (.BinOp node tok rhs)) st
        else .ok (node, st)
    | .trm =>
      match st with
      | [] => .error .stopIteration
      | tok :: _ =>
        match tok.type with
        | .NOT => do
          let st ← ingest .NOT st
          let (child, st) ← run fuel .trm st
          .ok (.UnaryOp tok child, st)
        | .TERM => do
          let st ← ingest .TERM st
          .ok (.Term tok, st)
        | .LPAREN => do
          let st ← ingest .LPAREN st
          let (node, st) ← run fuel .expr st
          let st ← ingest .RPAREN st
          .ok (node, st)
        | _ => .error .unboundLocal

/-- `Parser.__init__` + `Parser.parse`: append the end-of-stream marker to the
tokenized expression, lex, and run `_expression`. The fuel is an upper bound on
the recursion depth, generous enough for every input. -/
def parse (tokens : List String) : Except PyError ParseTree := do
  let toks := lexer (tokens ++ [TokenType.EOF.value])
  let (tree, _) ← run (4 * toks.length + 4) .expr toks
  .ok tree

end Parser

/-- Merge step of `intersect`, structurally recursive on a fuel bound so that it
evaluates inside the kernel; each step drops at least one input element, so
`|a| + |b|` fuel always suffices. -/
def intersectGo : Nat → List Posting → List Posting → List Posting
  | _, [], _ => []
  | _, _, [] => []
  | 0, _, _ => []
  | fuel + 1, a :: as, b :: bs =>
    if a.docid = b.docid then a :: intersectGo fuel as bs
    else if a.docid < b.docid then intersectGo fuel as (b :: bs)
    else intersectGo fuel (a :: as) bs

/-- Modelled from the spec: `search.intersect` is not among the sources; per spec
section 4.2 it is a merge-join over postings sorted ascending by docid, keeping one
Posting per docid present in both inputs, with positions taken from the first
input's entry. -/
def intersect (a b : List Posting) : List Posting :=
  intersectGo (a.length + b.length) a b

/-- Merge step of `union`, structurally recursive on a fuel bound (see
`intersectGo`). -/
def unionGo : Nat → List Posting → List Posting → List Posting
  | _, [], bs => bs
  | _, as, [] => as
  | 0, _, _ => []
  | fuel + 1, a :: as, b :: bs =>
    if a.docid = b.docid then a :: unionGo fuel as bs
    else if a.docid < b.docid then a :: unionGo fuel as (b :: bs)
    else b :: unionGo fuel (a :: as) bs

/-- Modelled from the spec: `search.union` is not among the sources; per spec
section 4.2 it is a merge keeping one Posting per docid present in either input,
preferring the first input's positions when a docid appears in both. -/
def union (a b : List Posting) : List Posting :=
  unionGo (a.length + b.length) a b

/-- Modelled from the spec: `search.neg` is not among the sources; per spec
section 4.2 it returns a Posting with empty positions for every docid of the
universe not present in the input postings. -/
def neg (univ : List Nat) (a : List Posting) : List Posting :=
  (univ.filter (fun d => ¬ (a.map Posting.docid).contains d)).map
    (fun d => { docid := d, positions := [] })

/-- Modelled from the spec: how `search.union` receives the children of an OR node.
The Evaluator passes each child's evaluation straight to `search.union`, and a
child may be the absence signal (`none`); per spec sections 4.2/4.3 absence is
treated as the empty postings list for union's purposes. -/
def unionOpt (a b : Option (List Posting)) : List Posting :=
  union (a.getD []) (b.getD [])

/-- One entry of `EvaluationResult.results` (a `positions`/`terms` pair). -/
structure DocResult where
  positions : List Nat
  terms : List String
deriving DecidableEq

/-- `expression_eval.EvaluationResult` (shared, per the spec, with the ranked path
whose variant lives in the absent `eval_result.py`): insertion-ordered maps from
term to postings and from docid to matched terms, plus the finalized result.
The field `ranked_result` is modelled from the spec: the ranked path's final
sequence of (docid, score) pairs, stored by `update_ranked_results` of the absent
`eval_result.py`. -/
structure EvaluationResult where
  postings_map : List (String × List Posting)
  term_map : List (Nat × List String)
  query_result : Option (List Posting)
  results : Option (List (Nat × DocResult))
  ranked_result : Option (List (Nat × ℚ))
  complete : Bool
deriving DecidableEq

/-- `EvaluationResult.__init__`: empty maps, no results yet. -/
def EvaluationResult.empty : EvaluationResult :=
  { postings_map := [], term_map := [], query_result := none, results := none,
    ranked_result := none, complete := false }

/-- `EvaluationResult.add_postings`: store the postings under the term (overwriting
a previous entry), and for every posting append the term to the docid's term list,
first creating an empty list when the docid is not yet in the map. Note the Python
code checks only whether the docid is present, never whether the term is already
recorded for it. -/
def EvaluationResult.add_postings (r : EvaluationResult) (term : String)
    (postings : List Posting) : EvaluationResult :=
  let r := { r with postings_map := dictSet r.postings_map term postings }
  postings.foldl
    (fun r p =>
      { r with term_map :=
          dictSet r.term_map p.docid ((dictGet r.term_map p.docid).getD [] ++ [term]) })
    r

/-- `EvaluationResult.update_results`: record the final postings and build the
per-document view from them and the recorded term map, then mark complete. -/
def EvaluationResult.update_results (r : EvaluationResult)
    (query_result : List Posting) : EvaluationResult :=
  { r with
    query_result := some query_result,
    results := some (query_result.map (fun p =>
      (p.docid, { positions := p.positions,
                  terms := (dictGet r.term_map p.docid).getD [] }))),
    complete := true }

/-- `EvaluationResult.get_postings`: the Python body assigns a local from
`postings_map` but has no return statement, so the function always returns `None`
(the local is computed and dropped). -/
def EvaluationResult.get_postings (r : EvaluationResult) (term : String) :
    Option (List Posting) :=
  let _postings : List Posting :=
    match dictGet r.postings_map term with
    | some ps => ps
    | none => []
  none

/-- `EvaluationResult.get_terms`: the docid's recorded terms, or `[]`. -/
def EvaluationResult.get_terms (r : EvaluationResult) (docid : Nat) : List String :=
  (dictGet r.term_map docid).getD []

/-- Modelled from the spec: `eval_result.EvaluationResult.update_ranked_results` is
not among the sources; per spec section 4.4 the sorted (docid, score) pairs are
handed to the aggregator as the ranked final sequence and the result is finalized. -/
def EvaluationResult.update_ranked_results (r : EvaluationResult)
    (ranked : List (Nat × ℚ)) : EvaluationResult :=
  { r with ranked_result := some ranked, complete := true }

namespace Evaluator

/-- `Evaluator._visit` and its three dispatch targets `_visit_binop`,
`_visit_term`, `_visit_unaryop`. The postings value threaded between nodes is
`Option (List Posting)`: `none` is the index's absence signal for an unindexed
term (Python `None`). State is the `EvaluationResult` being accumulated.
For AND, an absent child is an identity element and `intersect` is applied only
when both children are real; for OR, both children go to `search.union` (absence
treated as empty); NOT negates against the universe; a BinOp whose operator is
neither AND nor OR raises `ExpressionParserException`. -/
def visit (idx : InvertedIndex) :
    ParseTree → EvaluationResult → Except PyError (Option (List Posting) × EvaluationResult)
  | .BinOp l op r, st =>
    match op.type with
    | .AND => do
      let (left_postings, st) ← visit idx l st
      let (right_postings, st) ← visit idx r st
      match left_postings, right_postings with
      | none, none => .ok (none, st)
      | none, some p => .ok (some p, st)
      | some p, none => .ok (some p, st)
      | some lp, some rp => .ok (some (intersect lp rp), st)
    | .OR => do
      let (left_postings, st) ← visit idx l st
      let (right_postings, st) ← visit idx r st
      .ok (some (unionOpt left_postings right_postings), st)
    | _ => .error .invalidBinaryOperator
  | .Term tok, st =>
    match idx.get_postings tok.value with
    | none => .ok (none, st.add_postings tok.value [])
    | some tp => .ok (some tp.postings, st.add_postings tok.value tp.postings)
  | .UnaryOp _ child, st => do
    let (child_postings, st) ← visit idx child st
    .ok (some (neg idx.get_universe (child_postings.getD [])), st)

/-- `Evaluator.evaluate`: reset the aggregator, parse, walk the tree, substitute
the empty list when the whole result is absent, and finalize. -/
def evaluate (idx : InvertedIndex) (tokens : List String) :
    Except PyError EvaluationResult := do
  let tree ← Parser.parse tokens
  let (query_result, st) ← visit idx tree EvaluationResult.empty
  .ok (st.update_results (query_result.getD []))

end Evaluator

/-- `rank_bm25_eval.RankedSearchBM25`: the tokenized free-text query, the index
handle and the BM25 parameters. Floats are modelled as exact rationals. -/
structure RankedSearchBM25 where
  query : List String
  index : InvertedIndex
  k1 : ℚ
  b : ℚ

namespace RankedSearchBM25

/-- The fetch loop at the top of `RankedSearchBM25.evaluate`: for each query token
(duplicates retained) fetch the term's postings; a `None` result is skipped, a
real result has its `term` field overwritten with the query token
(`term_postings.term = t`) and is appended to the list. -/
def build_term_postings_list (s : RankedSearchBM25) : List TermPostings :=
  s.query.filterMap (fun t =>
    (s.index.get_postings t).map (fun tp => { tp with term := t }))

/-- `RankedSearchBM25._compute_bm25_term`: the partial BM25 weight of one term in
one document. -/
def compute_bm25_term (s : RankedSearchBM25) (idf tf dl : ℚ) : ℚ :=
  idf * ((s.k1 + 1) * tf) /
    (s.k1 * ((1 - s.b) + s.b * (dl / s.index.avg_doclength)) + tf)

/-- `RankedSearchBM25._search_scored`: accumulate the partial BM25 weight of every
posting of every fetched term into a docid-keyed accumulator dictionary.
`math.log2` is an opaque external function, passed in as the parameter `log2`;
a term with an empty postings list gets `idf = 0` (the Python truthiness test
`if term_postings.postings`). -/
def search_scored (s : RankedSearchBM25) (log2 : ℚ → ℚ)
    (term_postings_list : List TermPostings) : List (Nat × ℚ) :=
  term_postings_list.foldl
    (fun acc tp =>
      let idf : ℚ :=
        if tp.postings.isEmpty then 0
        else log2 ((s.index.get_doc_count : ℚ) / (tp.postings.length : ℚ))
      tp.postings.foldl
        (fun acc p =>
          let tf : ℚ := p.positions.length
          let dl : ℚ := s.index.get_doclength p.docid
          dictSet acc p.docid
            ((dictGet acc p.docid).getD 0 + s.compute_bm25_term idf tf dl))
        acc)
    []

/-- Ordering used by `sorted(scored_result.items(), key=itemgetter(1),
reverse=True)`: earlier entries have scores at least as large. -/
def scoreGE (a b : Nat × ℚ) : Prop := b.2 ≤ a.2

instance : DecidableRel scoreGE := fun a b => inferInstanceAs (Decidable (b.2 ≤ a.2))

instance : IsTotal (Nat × ℚ) scoreGE := ⟨fun a b => le_total b.2 a.2⟩

instance : IsTrans (Nat × ℚ) scoreGE := ⟨fun _ _ _ h h2 => le_trans h2 h⟩

/-- Python's `sorted(pairs, key=itemgetter(1), reverse=True)`: a stable sort of the
(docid, score) pairs by score descending, modelled with a stable insertion sort. -/
def sortedByScoreDesc (l : List (Nat × ℚ)) : List (Nat × ℚ) :=
  l.insertionSort scoreGE

/-- `RankedSearchBM25._build_result`: register every fetched term's postings into
the aggregator, sort the scored pairs by score descending, and hand them to the
aggregator as the ranked final sequence. -/
def build_result (term_postings_list : List TermPostings)
    (scored_result : List (Nat × ℚ)) : EvaluationResult :=
  let results := term_postings_list.foldl
    (fun r tp => r.add_postings tp.term tp.postings) EvaluationResult.empty
  let ranked_score := sortedByScoreDesc scored_result
  results.update_ranked_results ranked_score

/-- `RankedSearchBM25.evaluate`: fetch, score, build. -/
def evaluate (s : RankedSearchBM25) (log2 : ℚ → ℚ) : EvaluationResult :=
  let term_postings_list := s.build_term_postings_list
  let scored_results := s.search_scored log2 term_postings_list
  build_result term_postings_list scored_results

end RankedSearchBM25

/-- Written from the spec's words for claim C4 (to be compared with the code's
accumulator loop `search_scored`): the BM25 score of document `d` is the sum, over
every query-term occurrence and every posting for `d` in that term's postings
list, of `idf * (k1+1) * tf / (k1 * ((1-b) + b * dl/davg) + tf)` with
`idf = log2(N/df)` when `df > 0` and `idf = 0` for a term with zero postings. -/
def specScore (s : RankedSearchBM25) (log2 : ℚ → ℚ)
    (term_postings_list : List TermPostings) (d : Nat) : ℚ :=
  (term_postings_list.map (fun tp =>
    let df : ℚ := tp.postings.length
    let idf : ℚ := if tp.postings.length ≠ 0 then log2 ((s.index.get_doc_count : ℚ) / df) else 0
    ((tp.postings.filter (fun p => p.docid = d)).map (fun p =>
      let tf : ℚ := p.positions.length
      let dl : ℚ := s.index.get_doclength p.docid
      idf * (s.k1 + 1) * tf /
        (s.k1 * ((1 - s.b) + s.b * dl / s.index.avg_doclength) + tf))).sum)).sum

/-- Concrete index for claim C1: term `x` is not indexed, term `y` matches
documents 5 and 6. -/
def idxC1 : InvertedIndex where
  get_postings := fun t =>
    if t = "y" then some { term := "y", postings := [⟨5, [0]⟩, ⟨6, [1]⟩] } else none
  get_universe := [5, 6]
  get_doc_count := 2
  get_doclength := fun _ => 1
  avg_doclength := 1

/-- Concrete index for claim C2: `a` matches document 1, `b` and `c` match
document 2. -/
def idxC2 : InvertedIndex where
  get_postings := fun t =>
    if t = "a" then some { term := "a", postings := [⟨1, [0]⟩] }
    else if t = "b" then some { term := "b", postings := [⟨2, [0]⟩] }
    else if t = "c" then some { term := "c", postings := [⟨2, [1]⟩] }
    else none
  get_universe := [1, 2]
  get_doc_count := 2
  get_doclength := fun _ => 1
  avg_doclength := 1

/-- Concrete index for claim C6: `x` matches documents 1 and 3, `y` matches
documents 3 and 5. -/
def idxC6 : InvertedIndex where
  get_postings := fun t =>
    if t = "x" then some { term := "x", postings := [⟨1, [0]⟩, ⟨3, [2]⟩] }
    else if t = "y" then some { term := "y", postings := [⟨3, [5]⟩, ⟨5, [7]⟩] }
    else none
  get_universe := [1, 3, 5]
  get_doc_count := 3
  get_doclength := fun _ => 1
  avg_doclength := 1

/-- Concrete index for claim C9: the TermPostings object the index stores for the
query token `x` carries the term string `X`, different from the token. -/
def idxC9 : InvertedIndex where
  get_postings := fun t =>
    if t = "x" then some { term := "X", postings := [⟨1, [0]⟩] } else none
  get_universe := [1]
  get_doc_count := 1
  get_doclength := fun _ => 1
  avg_doclength := 1

/-- Concrete ranked search for claim C9, with the default parameters
`k1 = 1.2`, `b = 0.75`. -/
def searchC9 : RankedSearchBM25 :=
  { query := ["x"], index := idxC9, k1 := 6 / 5, b := 3 / 4 }

/-- The term strings occurring in a parse tree, in visitation order. -/
def treeTerms : ParseTree → List String
  | .BinOp l _ r => treeTerms l ++ treeTerms r
  | .Term tok => [tok.value]
  | .UnaryOp _ c => treeTerms c

/-- Aggregator state after visiting term `x` of `idxC1` (absent, recorded with an
empty postings list). -/
def stC1a : EvaluationResult := EvaluationResult.empty.add_postings "x" []

/-- Aggregator state after visiting terms `x` then `y` of `idxC1`. -/
def stC1b : EvaluationResult := stC1a.add_postings "y" [⟨5, [0]⟩, ⟨6, [1]⟩]

/-- The parse tree of the query `x AND y`. -/
def treeXandY : ParseTree :=
  .BinOp (.Term { value := "x", type := .TERM }) { value := "AND", type := .AND }
    (.Term { value := "y", type := .TERM })

/-- Aggregator state after visiting terms `x` then `y` of `idxC6`. -/
def stC6 : EvaluationResult :=
  (EvaluationResult.empty.add_postings "x" [⟨1, [0]⟩, ⟨3, [2]⟩]).add_postings "y"
    [⟨3, [5]⟩, ⟨5, [7]⟩]

/-- A concrete sequence of `add_postings` calls with pairwise-distinct terms,
both touching docid 1. -/
def callsC5 : List (String × List Posting) := [("x", [⟨1, [0]⟩]), ("y", [⟨1, [1]⟩])]

theorem dictGet_dictSet_self {α β : Type} [DecidableEq α] (m : List (α × β)) (k : α) (v : β) :
    dictGet (dictSet m k v) k = some v := by
  induction m with
  | nil => simp [dictGet, dictSet]
  | cons kv rest ih =>
    obtain ⟨k', v'⟩ := kv
    by_cases h : k' = k
    · subst h; simp [dictGet, dictSet]
    · simp [dictGet, dictSet, h, ih]

theorem dictGet_dictSet_ne {α β : Type} [DecidableEq α] (m : List (α × β)) (k d : α) (v : β)
    (h : k ≠ d) : dictGet (dictSet m k v) d = dictGet m d := by
  induction m with
  | nil => simp [dictGet, dictSet, h]
  | cons kv rest ih =>
    obtain ⟨k', v'⟩ := kv
    by_cases hk : k' = k
    · subst hk; simp [dictGet, dictSet, h]
    · by_cases hd : k' = d
      · subst hd; simp [dictGet, dictSet, hk]
      · simp [dictGet, dictSet, hk, hd, ih]

theorem unionGo_nil_left (fuel : Nat) (bs : List Posting) : unionGo fuel [] bs = bs := by
  cases fuel <;> cases bs <;> rfl

theorem unionGo_nil_right (fuel : Nat) (as : List Posting) : unionGo fuel as [] = as := by
  cases fuel <;> cases as <;> rfl

theorem union_nil_left (bs : List Posting) : union [] bs = bs := unionGo_nil_left _ _

theorem union_nil_right (as : List Posting) : union as [] = as := unionGo_nil_right _ _

/-- The `term_map` of the state folded by `add_postings` is the fold of the
per-docid map updates over the starting `term_map`. -/
theorem foldl_add_term_map (tm : String) :
    ∀ (ps : List Posting) (r : EvaluationResult),
      (ps.foldl
        (fun r p =>
          { r with term_map :=
              dictSet r.term_map p.docid ((dictGet r.term_map p.docid).getD [] ++ [tm]) })
        r).term_map =
      ps.foldl (fun m p => dictSet m p.docid ((dictGet m p.docid).getD [] ++ [tm]))
        r.term_map := by
  intro ps
  induction ps with
  | nil => intro r; rfl
  | cons p ps ih => intro r; rw [List.foldl_cons, List.foldl_cons, ih]

theorem add_postings_term_map (r : EvaluationResult) (tm : String) (ps : List Posting) :
    (r.add_postings tm ps).term_map =
      ps.foldl (fun m p => dictSet m p.docid ((dictGet m p.docid).getD [] ++ [tm]))
        r.term_map := by
  show (ps.foldl _ { r with postings_map := dictSet r.postings_map tm ps }).term_map = _
  rw [foldl_add_term_map]

/-- Effect of one `add_postings` call on one docid's recorded term list, membership
form: a term is recorded afterwards iff it was recorded before or it is the added
term and the docid occurs in the added postings. -/
theorem add_postings_get_terms_mem (r : EvaluationResult) (tm : String)
    (ps : List Posting) (d : Nat) (t : String) :
    t ∈ (r.add_postings tm ps).get_terms d ↔
      t ∈ r.get_terms d ∨ (t = tm ∧ d ∈ ps.map Posting.docid) := by
  suffices h : ∀ (ps : List Posting) (m : List (Nat × List String)),
      t ∈ (dictGet (ps.foldl
          (fun m p => dictSet m p.docid ((dictGet m p.docid).getD [] ++ [tm])) m) d).getD [] ↔
        t ∈ (dictGet m d).getD [] ∨ (t = tm ∧ d ∈ ps.map Posting.docid) by
    show t ∈ (dictGet (r.add_postings tm ps).term_map d).getD [] ↔ _
    rw [add_postings_term_map]
    exact h ps r.term_map
  intro ps
  induction ps with
  | nil => simp
  | cons p ps ih =>
    intro m
    rw [List.foldl_cons, ih]
    by_cases hd : p.docid = d
    · subst hd
      rw [dictGet_dictSet_self]
      simp only [Option.getD_some, List.mem_append, List.map_cons, List.mem_cons,
        List.not_mem_nil, or_false]
      tauto
    · rw [dictGet_dictSet_ne _ _ _ _ hd]
      have hd2 : ¬ d = p.docid := fun h => hd h.symm
      simp only [List.map_cons, List.mem_cons]
      tauto

theorem exceptBind_ok {ε α β : Type} (a : α) (f : α → Except ε β) :
    (Except.ok a : Except ε α) >>= f = f a := rfl

theorem exceptBind_error {ε α β : Type} (e : ε) (f : α → Except ε β) :
    (Except.error e : Except ε α) >>= f = Except.error e := rfl

/-- A term is recorded for a docid after an evaluation walk iff it was recorded
before the walk, or it occurs in the tree and the index's postings list for it
contains the docid — independent of the boolean combination computed. -/
theorem visit_get_terms_mem :
    ∀ (tree : ParseTree) (idx : InvertedIndex) (st : EvaluationResult)
      (res : Option (List Posting)) (st₂ : EvaluationResult),
      Evaluator.visit idx tree st = .ok (res, st₂) →
      ∀ (d : Nat) (t : String),
        t ∈ st₂.get_terms d ↔
          t ∈ st.get_terms d ∨
            (t ∈ treeTerms tree ∧
              ∃ tp, idx.get_postings t = some tp ∧ d ∈ tp.postings.map Posting.docid) := by
  intro tree
  induction tree with
  | Term tok =>
    intro idx st res st₂ h d t
    cases hg : idx.get_postings tok.value with
    | none =>
      simp only [Evaluator.visit, hg, Except.ok.injEq, Prod.mk.injEq] at h
      obtain ⟨hres, hst⟩ := h
      subst hst
      rw [add_postings_get_terms_mem]
      simp only [List.map_nil, List.not_mem_nil, and_false, or_false, treeTerms,
        List.mem_singleton]
      constructor
      · exact Or.inl
      · rintro (h | ⟨rfl, tp, htp, _⟩)
        · exact h
        · rw [hg] at htp; cases htp
    | some tpv =>
      simp only [Evaluator.visit, hg, Except.ok.injEq, Prod.mk.injEq] at h
      obtain ⟨hres, hst⟩ := h
      subst hst
      rw [add_postings_get_terms_mem]
      simp only [treeTerms, List.mem_singleton]
      constructor
      · rintro (h | ⟨rfl, hmem⟩)
        · exact Or.inl h
        · exact Or.inr ⟨rfl, tpv, hg, hmem⟩
      · rintro (h | ⟨rfl, tp, htp, hmem⟩)
        · exact Or.inl h
        · rw [hg] at htp
          cases htp
          exact Or.inr ⟨rfl, hmem⟩
  | BinOp l op r ihl ihr =>
    intro idx st res st₂ h d t
    rw [Evaluator.visit] at h
    revert h
    cases hty : op.type <;> intro h <;> try simp at h
    case AND =>
      cases hv₁ : Evaluator.visit idx l st with
      | error e => rw [hv₁, exceptBind_error] at h; cases h
      | ok p₁ =>
        obtain ⟨lres, st₁⟩ := p₁
        rw [hv₁, exceptBind_ok] at h
        cases hv₂ : Evaluator.visit idx r st₁ with
        | error e => rw [hv₂, exceptBind_error] at h; cases h
        | ok p₂ =>
          obtain ⟨rres, stR⟩ := p₂
          rw [hv₂, exceptBind_ok] at h
          have hst : st₂ = stR := by
            cases lres <;> cases rres <;>
              simp only [Except.ok.injEq, Prod.mk.injEq] at h <;> exact h.2.symm
          subst hst
          rw [ihr idx st₁ rres st₂ hv₂ d t, ihl idx st lres st₁ hv₁ d t]
          simp only [treeTerms, List.mem_append]
          generalize (∃ tp, idx.get_postings t = some tp ∧
            d ∈ List.map Posting.docid tp.postings) = Q
          tauto
    case OR =>
      cases hv₁ : Evaluator.visit idx l st with
      | error e => rw [hv₁, exceptBind_error] at h; cases h
      | ok p₁ =>
        obtain ⟨lres, st₁⟩ := p₁
        rw [hv₁, exceptBind_ok] at h
        cases hv₂ : Evaluator.visit idx r st₁ with
        | error e => rw [hv₂, exceptBind_error] at h; cases h
        | ok p₂ =>
          obtain ⟨rres, stR⟩ := p₂
          rw [hv₂, exceptBind_ok] at h
          simp only [Except.ok.injEq, Prod.mk.injEq] at h
          obtain ⟨hres, hst⟩ := h
          have hst2 : st₂ = stR := hst.symm
          subst hst2
          rw [ihr idx st₁ rres st₂ hv₂ d t, ihl idx st lres st₁ hv₁ d t]
          simp only [treeTerms, List.mem_append]
          generalize (∃ tp, idx.get_postings t = some tp ∧
            d ∈ List.map Posting.docid tp.postings) = Q
          tauto
  | UnaryOp op child ih =>
    intro idx st res st₂ h d t
    rw [Evaluator.visit] at h
    cases hv : Evaluator.visit idx child st with
    | error e => rw [hv, exceptBind_error] at h; cases h
    | ok p =>
      obtain ⟨cres, st₁⟩ := p
      rw [hv, exceptBind_ok] at h
      simp only [Except.ok.injEq, Prod.mk.injEq] at h
      obtain ⟨hres, hst⟩ := h
      have hst2 : st₂ = st₁ := hst.symm
      subst hst2
      rw [ih idx st cres st₂ hv d t]
      simp only [treeTerms]

/-- Effect of one `add_postings` call on one docid's term list, exact form, under
the data-model invariant that docids are unique within a postings list. -/
theorem foldl_term_map_get (tm : String) :
    ∀ (ps : List Posting) (m : List (Nat × List String)) (d : Nat),
      (ps.map Posting.docid).Nodup →
      (dictGet (ps.foldl
        (fun m p => dictSet m p.docid ((dictGet m p.docid).getD [] ++ [tm])) m) d).getD []
      = if d ∈ ps.map Posting.docid then (dictGet m d).getD [] ++ [tm]
        else (dictGet m d).getD [] := by
  intro ps
  induction ps with
  | nil => intro m d _; simp
  | cons p ps ih =>
    intro m d hnodup
    rw [List.map_cons] at hnodup
    have hn := List.nodup_cons.mp hnodup
    rw [List.foldl_cons, ih _ d hn.2]
    by_cases hd : d ∈ ps.map Posting.docid
    · have hp : p.docid ≠ d := fun h => hn.1 (h ▸ hd)
      rw [if_pos hd, dictGet_dictSet_ne _ _ _ _ hp,
        if_pos (by simp only [List.map_cons, List.mem_cons]; exact Or.inr hd)]
    · by_cases hpd : p.docid = d
      · subst hpd
        rw [if_neg hd, dictGet_dictSet_self]
        rw [if_pos (by simp)]
        simp
      · rw [if_neg hd, dictGet_dictSet_ne _ _ _ _ hpd]
        rw [if_neg (by
          simp only [List.map_cons, List.mem_cons]
          rintro (h | h)
          · exact hpd h.symm
          · exact hd h)]

/-- Exact effect of `add_postings` on `get_terms` for docid-unique postings. -/
theorem add_postings_get_terms_eq (r : EvaluationResult) (tm : String)
    (ps : List Posting) (hnodup : (ps.map Posting.docid).Nodup) (d : Nat) :
    (r.add_postings tm ps).get_terms d =
      if d ∈ ps.map Posting.docid then r.get_terms d ++ [tm] else r.get_terms d := by
  show (dictGet (r.add_postings tm ps).term_map d).getD [] = _
  rw [add_postings_term_map, foldl_term_map_get tm ps r.term_map d hnodup]
  rfl

/-- Invariant step for the amended C5: folding `add_postings` calls whose terms
are pairwise distinct and absent from the current state keeps every docid's term
list duplicate-free. -/
theorem add_postings_fold_nodup_aux :
    ∀ (calls : List (String × List Posting)) (r : EvaluationResult),
      (calls.map Prod.fst).Nodup →
      (∀ c ∈ calls, (c.2.map Posting.docid).Nodup) →
      (∀ d, (r.get_terms d).Nodup) →
      (∀ d t, t ∈ r.get_terms d → t ∉ calls.map Prod.fst) →
      ∀ d, ((calls.foldl (fun r c => r.add_postings c.1 c.2) r).get_terms d).Nodup := by
  intro calls
  induction calls with
  | nil => intro r _ _ hnod _ d; exact hnod d
  | cons c rest ih =>
    intro r hterms hdocs hnod hfresh d
    rw [List.foldl_cons]
    have hcnodup : (c.2.map Posting.docid).Nodup := hdocs c (List.mem_cons_self c rest)
    rw [List.map_cons] at hterms
    have hterms2 := List.nodup_cons.mp hterms
    refine ih (r.add_postings c.1 c.2) hterms2.2
      (fun c2 hc2 => hdocs c2 (List.mem_cons_of_mem c hc2)) ?_ ?_ d
    · intro d2
      rw [add_postings_get_terms_eq _ _ _ hcnodup d2]
      by_cases hm : d2 ∈ c.2.map Posting.docid
      · rw [if_pos hm]
        refine (hnod d2).append (List.nodup_singleton c.1) ?_
        intro t ht hts
        rw [List.mem_singleton] at hts
        subst hts
        exact hfresh d2 c.1 ht (by rw [List.map_cons]; exact List.mem_cons_self c.1 _)
      · rw [if_neg hm]
        exact hnod d2
    · intro d2 t ht
      rw [add_postings_get_terms_eq _ _ _ hcnodup d2] at ht
      by_cases hm : d2 ∈ c.2.map Posting.docid
      · rw [if_pos hm] at ht
        rcases List.mem_append.mp ht with h | h
        · exact fun hmem => hfresh d2 t h (by simp only [List.map_cons]; exact List.mem_cons_of_mem _ hmem)
        · rw [List.mem_singleton] at h
          subst h
          exact hterms2.1
      · rw [if_neg hm] at ht
        exact fun hmem => hfresh d2 t ht (by simp only [List.map_cons]; exact List.mem_cons_of_mem _ hmem)

/-- C10: for every term string and every state of an `EvaluationResult`, the
accessor `get_postings` returns `None` — both when the term is present in
`postings_map` and when it is absent — because the Python body has no return
statement. -/
theorem eval_result_get_postings_always_none (r : EvaluationResult) (term : String) :
    r.get_postings term = none := rfl

/-- C3 (code bug): the trailing-operator query `a AND` reaches end of input in
term position, where `Parser._term` has no matching branch and no else; Python
falls to `return node` with the local unassigned and raises `UnboundLocalError`
instead of the `ExpressionParserException` the claim (and the spec) promise. -/
theorem parse_trailing_and_unbound_local :
    Parser.parse ["a", "AND"] = .error .unboundLocal ∧
      PyError.unboundLocal.isExpressionParserException = false :=
  ⟨by decide, rfl⟩

/-- C5 (counterexample): two `add_postings` calls with the same term and the same
docid record the term twice for that docid — the code only checks whether the
docid is present in `term_map`, never whether the term is already recorded. -/
theorem add_postings_duplicate_term :
    ((EvaluationResult.empty.add_postings "x" [⟨1, [0]⟩]).add_postings "x"
        [⟨1, [0]⟩]).get_terms 1 = ["x", "x"] ∧
      ¬ (((EvaluationResult.empty.add_postings "x" [⟨1, [0]⟩]).add_postings "x"
        [⟨1, [0]⟩]).get_terms 1).Nodup := by
  exact ⟨by decide, by decide⟩

/-- C1: in an AND node, an absent child (term not indexed) is an identity
element: if exactly one child evaluates to absence the other child's postings
pass through unchanged, if both are absent the AND is absent, and `intersect` is
applied only when both children carry real postings lists; concretely, with `x`
absent and `y` matching documents 5 and 6, evaluating `x AND y` yields exactly
{5, 6}. -/
theorem visit_and_absent_identity :
    (∀ (idx : InvertedIndex) (l r : ParseTree) (op : Token) (st st₁ st₂ : EvaluationResult)
      (ps : List Posting),
      op.type = .AND →
      Evaluator.visit idx l st = .ok (none, st₁) →
      Evaluator.visit idx r st₁ = .ok (some ps, st₂) →
      Evaluator.visit idx (.BinOp l op r) st = .ok (some ps, st₂)) ∧
    (∀ (idx : InvertedIndex) (l r : ParseTree) (op : Token) (st st₁ st₂ : EvaluationResult)
      (ps : List Posting),
      op.type = .AND →
      Evaluator.visit idx l st = .ok (some ps, st₁) →
      Evaluator.visit idx r st₁ = .ok (none, st₂) →
      Evaluator.visit idx (.BinOp l op r) st = .ok (some ps, st₂)) ∧
    (∀ (idx : InvertedIndex) (l r : ParseTree) (op : Token) (st st₁ st₂ : EvaluationResult),
      op.type = .AND →
      Evaluator.visit idx l st = .ok (none, st₁) →
      Evaluator.visit idx r st₁ = .ok (none, st₂) →
      Evaluator.visit idx (.BinOp l op r) st = .ok (none, st₂)) ∧
    (∀ (idx : InvertedIndex) (l r : ParseTree) (op : Token) (st st₁ st₂ : EvaluationResult)
      (lp rp : List Posting),
      op.type = .AND →
      Evaluator.visit idx l st = .ok (some lp, st₁) →
      Evaluator.visit idx r st₁ = .ok (some rp, st₂) →
      Evaluator.visit idx (.BinOp l op r) st = .ok (some (intersect lp rp), st₂)) ∧
    (Evaluator.evaluate idxC1 ["x", "AND", "y"]).map
        (fun r => (r.query_result.getD []).map Posting.docid) = .ok [5, 6] := by
  refine ⟨?_, ?_, ?_, ?_, by decide⟩
  · intro idx l r op st st₁ st₂ ps hop hl hr
    simp only [Evaluator.visit, hop, hl, hr, exceptBind_ok]
  · intro idx l r op st st₁ st₂ ps hop hl hr
    simp only [Evaluator.visit, hop, hl, hr, exceptBind_ok]
  · intro idx l r op st st₁ st₂ hop hl hr
    simp only [Evaluator.visit, hop, hl, hr, exceptBind_ok]
  · intro idx l r op st st₁ st₂ lp rp hop hl hr
    simp only [Evaluator.visit, hop, hl, hr, exceptBind_ok]

/-- C1 witness: the general AND-identity statement applied to the concrete index
`idxC1` where `x` is absent and `y` matches {5, 6}. -/
theorem visit_and_absent_identity_witness :
    Evaluator.visit idxC1 (.Term { value := "x", type := .TERM })
        EvaluationResult.empty = .ok (none, stC1a) ∧
    Evaluator.visit idxC1 (.Term { value := "y", type := .TERM }) stC1a =
        .ok (some [⟨5, [0]⟩, ⟨6, [1]⟩], stC1b) ∧
    Evaluator.visit idxC1 treeXandY EvaluationResult.empty =
        .ok (some [⟨5, [0]⟩, ⟨6, [1]⟩], stC1b) :=
  ⟨by decide, by decide,
    visit_and_absent_identity.1 idxC1 _ _ _ _ stC1a _ _ rfl (by decide) (by decide)⟩

/-- C8: in an OR node, a child that evaluates to the absence signal is treated as
the empty postings list: the OR returns the union of the other child's postings
with the empty list — which is exactly the other child's postings — and evaluation
never fails on an absent child. -/
theorem visit_or_absent_as_empty :
    (∀ (idx : InvertedIndex) (l r : ParseTree) (op : Token) (st st₁ st₂ : EvaluationResult)
      (ps : List Posting),
      op.type = .OR →
      Evaluator.visit idx l st = .ok (none, st₁) →
      Evaluator.visit idx r st₁ = .ok (some ps, st₂) →
      Evaluator.visit idx (.BinOp l op r) st = .ok (some (union [] ps), st₂) ∧
        union [] ps = ps) ∧
    (∀ (idx : InvertedIndex) (l r : ParseTree) (op : Token) (st st₁ st₂ : EvaluationResult)
      (ps : List Posting),
      op.type = .OR →
      Evaluator.visit idx l st = .ok (some ps, st₁) →
      Evaluator.visit idx r st₁ = .ok (none, st₂) →
      Evaluator.visit idx (.BinOp l op r) st = .ok (some (union ps []), st₂) ∧
        union ps [] = ps) := by
  constructor
  · intro idx l r op st st₁ st₂ ps hop hl hr
    refine ⟨?_, union_nil_left ps⟩
    simp only [Evaluator.visit, hop, hl, hr, exceptBind_ok, unionOpt, Option.getD_none,
      Option.getD_some]
  · intro idx l r op st st₁ st₂ ps hop hl hr
    refine ⟨?_, union_nil_right ps⟩
    simp only [Evaluator.visit, hop, hl, hr, exceptBind_ok, unionOpt, Option.getD_none,
      Option.getD_some]

/-- C8 witness: OR over the concrete index `idxC1` with the absent term `x` as
left child and `y` (matching {5, 6}) as right child. -/
theorem visit_or_absent_as_empty_witness :
    Evaluator.visit idxC1
        (.BinOp (.Term { value := "x", type := .TERM }) { value := "OR", type := .OR }
          (.Term { value := "y", type := .TERM })) EvaluationResult.empty =
      .ok (some (union [] [⟨5, [0]⟩, ⟨6, [1]⟩]), stC1b) ∧
    union [] [⟨5, [0]⟩, ⟨6, [1]⟩] = [⟨5, [0]⟩, ⟨6, [1]⟩] :=
  visit_or_absent_as_empty.1 idxC1 _ _ _ _ stC1a _ _ rfl (by decide) (by decide)

/-- C2: the recursive-descent parser gives AND precedence over OR: every query of
the shape `a OR b AND c` (with `a`, `b`, `c` classified as plain terms) parses as
`BinOp(OR, a, BinOp(AND, b, c))`; and against the index where `a` matches {1} and
`b`, `c` match {2}, boolean evaluation of `a OR b AND c` yields {1, 2}. -/
theorem parse_or_and_precedence :
    (∀ a b c : String, classify a = .TERM → classify b = .TERM → classify c = .TERM →
      Parser.parse [a, "OR", b, "AND", c] =
        .ok (.BinOp (.Term { value := a, type := .TERM }) { value := "OR", type := .OR }
          (.BinOp (.Term { value := b, type := .TERM }) { value := "AND", type := .AND }
            (.Term { value := c, type := .TERM })))) ∧
    (Evaluator.evaluate idxC2 ["a", "OR", "b", "AND", "c"]).map
        (fun r => (r.query_result.getD []).map Posting.docid) = .ok [1, 2] := by
  constructor
  · intro a b c ha hb hc
    have hOR : classify "OR" = .OR := by decide
    have hAND : classify "AND" = .AND := by decide
    have hEOF : classify "##EOF##" = .EOF := by decide
    have hlex : lexer ([a, "OR", b, "AND", c] ++ [TokenType.EOF.value]) =
        [{ value := a, type := .TERM }, { value := "OR", type := .OR },
          { value := b, type := .TERM }, { value := "AND", type := .AND },
          { value := c, type := .TERM }, { value := "##EOF##", type := .EOF }] := by
      simp only [TokenType.value, List.cons_append, List.nil_append, lexer, List.map_cons,
        List.map_nil, ha, hb, hc, hOR, hAND, hEOF]
    unfold Parser.parse
    rw [hlex]
    rfl
  · decide

/-- C2 witness: the precedence statement applied at the concrete strings
`a`, `b`, `c`. -/
theorem parse_or_and_precedence_witness :
    classify "a" = .TERM ∧
    Parser.parse ["a", "OR", "b", "AND", "c"] =
      .ok (.BinOp (.Term { value := "a", type := .TERM }) { value := "OR", type := .OR }
        (.BinOp (.Term { value := "b", type := .TERM }) { value := "AND", type := .AND }
          (.Term { value := "c", type := .TERM }))) :=
  ⟨by decide, parse_or_and_precedence.1 "a" "b" "c" (by decide) (by decide) (by decide)⟩

/-- C6: after a boolean evaluation walk started on a fresh aggregator, a term is
recorded for a docid exactly when the term occurs in the evaluated tree and the
index's postings list for it contains the docid — independent of AND/NOT
filtering; concretely, after `x AND y` with `x` matching {1, 3} and `y` matching
{3, 5}, docid 3 records [x, y] while docids 1 and 5 are populated too even though
only 3 survives into the final postings. -/
theorem term_map_records_all_visited_terms :
    (∀ (idx : InvertedIndex) (tree : ParseTree) (res : Option (List Posting))
      (r : EvaluationResult),
      Evaluator.visit idx tree EvaluationResult.empty = .ok (res, r) →
      ∀ (d : Nat) (t : String),
        t ∈ r.get_terms d ↔
          t ∈ treeTerms tree ∧
            ∃ tp, idx.get_postings t = some tp ∧ d ∈ tp.postings.map Posting.docid) ∧
    (Evaluator.evaluate idxC6 ["x", "AND", "y"]).map
        (fun r => (r.get_terms 3, r.get_terms 1, r.get_terms 5,
          (r.query_result.getD []).map Posting.docid)) =
      .ok (["x", "y"], ["x"], ["y"], [3]) := by
  constructor
  · intro idx tree res r h d t
    rw [visit_get_terms_mem tree idx EvaluationResult.empty res r h d t]
    simp [EvaluationResult.get_terms, EvaluationResult.empty, dictGet]
  · decide

/-- C6 witness: the characterization applied to the concrete evaluation of
`x AND y` over `idxC6`, at docid 5 and term `y`. -/
theorem term_map_records_all_visited_terms_witness :
    Evaluator.visit idxC6 treeXandY EvaluationResult.empty =
      .ok (some [⟨3, [2]⟩], stC6) ∧
    ("y" ∈ stC6.get_terms 5 ↔
      "y" ∈ treeTerms treeXandY ∧
        ∃ tp, idxC6.get_postings "y" = some tp ∧ 5 ∈ tp.postings.map Posting.docid) :=
  ⟨by decide,
    term_map_records_all_visited_terms.1 idxC6 treeXandY (some [⟨3, [2]⟩]) stC6
      (by decide) 5 "y"⟩

/-- C5 (amended): `add_postings` appends the term unconditionally for every docid
in the postings — the code checks only the docid's presence in `term_map`, not the
term's — so duplicates occur exactly when the same term is added again for a
docid; in particular, after any sequence of `add_postings` calls with
pairwise-distinct terms and docid-unique postings lists, no docid's term list
contains the same term twice. -/
theorem add_postings_nodup_of_distinct_terms
    (calls : List (String × List Posting))
    (hterms : (calls.map Prod.fst).Nodup)
    (hdocs : ∀ c ∈ calls, (c.2.map Posting.docid).Nodup) (d : Nat) :
    ((calls.foldl (fun r c => r.add_postings c.1 c.2)
        EvaluationResult.empty).get_terms d).Nodup := by
  refine add_postings_fold_nodup_aux calls EvaluationResult.empty hterms hdocs ?_ ?_ d
  · intro d2
    show (([] : List String)).Nodup
    exact List.nodup_nil
  · intro d2 t ht
    exact absurd ht (List.not_mem_nil t)

/-- C5 witness: two distinct-term calls both touching docid 1 leave a
duplicate-free term list. -/
theorem add_postings_nodup_of_distinct_terms_witness :
    (callsC5.map Prod.fst).Nodup ∧
    ((callsC5.foldl (fun r c => r.add_postings c.1 c.2)
        EvaluationResult.empty).get_terms 1).Nodup :=
  ⟨by decide, add_postings_nodup_of_distinct_terms callsC5 (by decide) (by decide) 1⟩

/-- C7: the ranked path's final (docid, score) sequence is sorted by score in
descending order — every earlier entry's score is at least every later entry's,
so an entry with strictly greater score always precedes one with a smaller
score; on the scored set {1 ↦ 0.5, 2 ↦ 0.9, 3 ↦ 0.9} documents 2 and 3 both
precede document 1. -/
theorem ranked_result_sorted_desc :
    (∀ (s : RankedSearchBM25) (log2 : ℚ → ℚ),
      ((s.evaluate log2).ranked_result.getD []).Pairwise RankedSearchBM25.scoreGE) ∧
    RankedSearchBM25.sortedByScoreDesc [(1, 1 / 2), (2, 9 / 10), (3, 9 / 10)] =
      [(2, 9 / 10), (3, 9 / 10), (1, 1 / 2)] := by
  constructor
  · intro s log2
    show (RankedSearchBM25.sortedByScoreDesc
      (s.search_scored log2 s.build_term_postings_list)).Pairwise RankedSearchBM25.scoreGE
    exact List.sorted_insertionSort RankedSearchBM25.scoreGE _
  · simp only [RankedSearchBM25.sortedByScoreDesc, List.insertionSort, List.orderedInsert]
    norm_num [RankedSearchBM25.scoreGE]

/-- C9 (counterexample): the BM25 path mutates a value obtained from the index —
`evaluate` assigns `term_postings.term = t`, so the TermPostings fetched for the
query token `x` (stored with term string `X`) does not keep all its fields. -/
theorem bm25_mutates_fetched_term_field :
    idxC9.get_postings "x" = some { term := "X", postings := [⟨1, [0]⟩] } ∧
    searchC9.build_term_postings_list = [{ term := "x", postings := [⟨1, [0]⟩] }] ∧
    ({ term := "x", postings := [⟨1, [0]⟩] } : TermPostings) ≠
      { term := "X", postings := [⟨1, [0]⟩] } :=
  ⟨by decide, by decide, by decide⟩

/-- C9 (amended): the BM25 path's only write to values obtained from the index is
overwriting each fetched TermPostings' `term` field with the query token; the
postings themselves pass through unchanged (and the boolean path, which is pure
in this embedding, performs no writes at all). -/
theorem build_term_postings_list_term_overwrite :
    (∀ (s : RankedSearchBM25) (tp' : TermPostings), tp' ∈ s.build_term_postings_list →
      ∃ t tp, t ∈ s.query ∧ s.index.get_postings t = some tp ∧
        tp'.term = t ∧ tp'.postings = tp.postings) ∧
    (∀ s : RankedSearchBM25,
      s.build_term_postings_list.map TermPostings.postings =
        s.query.filterMap (fun t => (s.index.get_postings t).map TermPostings.postings)) := by
  constructor
  · intro s tp' h
    unfold RankedSearchBM25.build_term_postings_list at h
    rw [List.mem_filterMap] at h
    obtain ⟨t, ht, hmap⟩ := h
    rw [Option.map_eq_some'] at hmap
    obtain ⟨tp, htp, hEq⟩ := hmap
    exact ⟨t, tp, ht, htp, by rw [← hEq], by rw [← hEq]⟩
  · intro s
    unfold RankedSearchBM25.build_term_postings_list
    rw [List.map_filterMap]
    congr 1
    funext t
    cases s.index.get_postings t <;> rfl

/-- C9 amended witness: the overwrite characterization applied to the concrete
search over `idxC9`. -/
theorem build_term_postings_list_term_overwrite_witness :
    (({ term := "x", postings := [⟨1, [0]⟩] } : TermPostings) ∈
      searchC9.build_term_postings_list) ∧
    ∃ t tp, t ∈ searchC9.query ∧ searchC9.index.get_postings t = some tp ∧
      ({ term := "x", postings := [⟨1, [0]⟩] } : TermPostings).term = t ∧
      ({ term := "x", postings := [⟨1, [0]⟩] } : TermPostings).postings = tp.postings :=
  ⟨by decide, build_term_postings_list_term_overwrite.1 searchC9 _ (by decide)⟩

/-- The code's BM25 formula `idf * ((k1+1) * tf) / (k1 * ((1-b) + b * (dl/davg)) + tf)`
agrees with the spec's spelling `idf * (k1+1) * tf / (k1 * ((1-b) + b * dl/davg) + tf)`. -/
theorem compute_bm25_term_spec_formula (s : RankedSearchBM25) (idf tf dl : ℚ) :
    s.compute_bm25_term idf tf dl =
      idf * (s.k1 + 1) * tf /
        (s.k1 * ((1 - s.b) + s.b * dl / s.index.avg_doclength) + tf) := by
  unfold RankedSearchBM25.compute_bm25_term
  rw [mul_div_assoc s.b dl, mul_assoc idf]

/-- The inner accumulator loop of `_search_scored` over one term's postings adds,
for each docid, exactly the sum of that term's per-posting partial scores for the
docid. -/
theorem bm25_inner_foldl (s : RankedSearchBM25) (idf : ℚ) (d : Nat) :
    ∀ (ps : List Posting) (acc : List (Nat × ℚ)),
      (dictGet (ps.foldl
        (fun acc p =>
          dictSet acc p.docid
            ((dictGet acc p.docid).getD 0 +
              s.compute_bm25_term idf (p.positions.length : ℚ)
                ((s.index.get_doclength p.docid : ℚ)))) acc) d).getD 0
      = (dictGet acc d).getD 0 +
        ((ps.filter (fun p => p.docid = d)).map
          (fun p => s.compute_bm25_term idf (p.positions.length : ℚ)
            ((s.index.get_doclength p.docid : ℚ)))).sum := by
  intro ps
  induction ps with
  | nil => intro acc; simp
  | cons p ps ih =>
    intro acc
    rw [List.foldl_cons, ih]
    by_cases hd : p.docid = d
    · subst hd
      rw [dictGet_dictSet_self]
      simp only [Option.getD_some, List.filter_cons, decide_eq_true_eq, eq_self_iff_true,
        if_true, List.map_cons, List.sum_cons]
      ring
    · rw [dictGet_dictSet_ne _ _ _ _ hd]
      simp only [List.filter_cons, decide_eq_true_eq, if_neg hd]

/-- C4: the accumulator computed by `_search_scored` over the fetched
term-postings list assigns every document exactly the additive BM25 score of the
spec: one contribution per query-term occurrence per posting of that document,
each equal to `idf * (k1+1) * tf / (k1 * ((1-b) + b * dl/davg) + tf)` with
`idf = log2(N/df)` for `df > 0` and `idf = 0` for a term with zero postings
(duplicate query terms contribute once per occurrence, since each occurrence
appends its postings to the fetched list). -/
theorem search_scored_eq_specScore (s : RankedSearchBM25) (log2 : ℚ → ℚ) (d : Nat) :
    (dictGet (s.search_scored log2 s.build_term_postings_list) d).getD 0 =
      specScore s log2 s.build_term_postings_list d := by
  have key : ∀ (tpl : List TermPostings) (acc : List (Nat × ℚ)),
      (dictGet (tpl.foldl
        (fun acc tp =>
          tp.postings.foldl
            (fun acc p =>
              dictSet acc p.docid
                ((dictGet acc p.docid).getD 0 +
                  s.compute_bm25_term
                    (if tp.postings.isEmpty then 0
                      else log2 ((s.index.get_doc_count : ℚ) / (tp.postings.length : ℚ)))
                    (p.positions.length : ℚ) ((s.index.get_doclength p.docid : ℚ))))
            acc) acc) d).getD 0
        = (dictGet acc d).getD 0 + specScore s log2 tpl d := by
    intro tpl
    induction tpl with
    | nil => intro acc; simp [specScore]
    | cons tp tpl ih =>
      intro acc
      rw [List.foldl_cons, ih, bm25_inner_foldl]
      have hidf : (if tp.postings.isEmpty then (0 : ℚ)
          else log2 ((s.index.get_doc_count : ℚ) / (tp.postings.length : ℚ)))
          = (if tp.postings.length ≠ 0
            then log2 ((s.index.get_doc_count : ℚ) / (tp.postings.length : ℚ)) else 0) := by
        cases tp.postings <;> simp
      have hterm : ((tp.postings.filter (fun p => p.docid = d)).map
          (fun p => s.compute_bm25_term
            (if tp.postings.isEmpty then 0
              else log2 ((s.index.get_doc_count : ℚ) / (tp.postings.length : ℚ)))
            (p.positions.length : ℚ) ((s.index.get_doclength p.docid : ℚ)))).sum
          = ((tp.postings.filter (fun p => p.docid = d)).map (fun p =>
              (if tp.postings.length ≠ 0
                then log2 ((s.index.get_doc_count : ℚ) / (tp.postings.length : ℚ)) else 0)
                * (s.k1 + 1) * (p.positions.length : ℚ) /
                (s.k1 * ((1 - s.b) + s.b * ((s.index.get_doclength p.docid : ℚ)) /
                  s.index.avg_doclength) + (p.positions.length : ℚ)))).sum := by
        rw [hidf]
        refine congrArg List.sum (List.map_congr_left ?_)
        intro p _
        rw [compute_bm25_term_spec_formula]
      rw [hterm]
      simp only [specScore, List.map_cons, List.sum_cons]
      ring
  have h0 := key s.build_term_postings_list []
  rw [show (dictGet ([] : List (Nat × ℚ)) d).getD 0 = 0 from rfl, zero_add] at h0
  exact h0
